import Mathlib

/-!
Shallow embedding of the Goldfish Connect-Four repository (src/game.py,
src/engine.py) and proofs about its specification claims.

Conventions of the embedding:
* Python lists are Lean `List`s; board cells are `Bool` (`false` = Player 1,
  `true` = Player 2), matching the source representation.
* Python strings are `List Char`.
* Python exceptions (`IndexError` from list indexing, `ValueError` from
  `int(...)` and `max(...)` on an empty sequence) are modeled by the
  `Except PyExc` monad; a `.error` value means the Python code raises.
* Machine integers are `Int`/`Nat`; Python ints are unbounded so no modular
  arithmetic is needed.
-/

/-- The Python exceptions that the translated code can raise. The source never
defines nor raises any custom error type (no FormatError / InvalidState). -/
inductive PyExc where
  | indexError
  | valueError
deriving DecidableEq, Repr

instance {ε α : Type} [DecidableEq ε] [DecidableEq α] : DecidableEq (Except ε α) := fun x y =>
  match x, y with
  | .ok a, .ok b =>
    if h : a = b then .isTrue (by rw [h]) else .isFalse (fun hc => by cases hc; exact h rfl)
  | .error a, .error b =>
    if h : a = b then .isTrue (by rw [h]) else .isFalse (fun hc => by cases hc; exact h rfl)
  | .ok _, .error _ => .isFalse (fun hc => by cases hc)
  | .error _, .ok _ => .isFalse (fun hc => by cases hc)

/-- Python list read `l[i]` for a non-negative index: raises `IndexError` when
out of range. -/
def pyGetCol (bd : List (List Bool)) (i : Nat) : Except PyExc (List Bool) :=
  match bd.get? i with
  | some c => .ok c
  | none => .error .indexError

/-- Python list read `c[j]` for a non-negative index into a column. -/
def pyGetCell (c : List Bool) (j : Nat) : Except PyExc Bool :=
  match c.get? j with
  | some x => .ok x
  | none => .error .indexError

/-- Python list read `c[j]` with full Python index semantics: negative indices
count from the end (`c[-1]` is the last element); out-of-range raises. -/
def pyCellI (c : List Bool) (j : Int) : Except PyExc Bool :=
  if 0 ≤ j then pyGetCell c j.toNat
  else if (-j).toNat ≤ c.length then pyGetCell c (c.length - (-j).toNat)
  else .error .indexError

/-- Resolve a Python index (possibly negative) on a list of length `n` to the
actual non-negative position, raising `IndexError` when out of range. -/
def pyResolveIdx (n : Nat) (i : Int) : Except PyExc Nat :=
  if 0 ≤ i then (if i < (n : Int) then .ok i.toNat else .error .indexError)
  else if (-i).toNat ≤ n then .ok (n - (-i).toNat)
  else .error .indexError

/-- Python `range(n)` where `n` is an int expression (negative yields empty). -/
def pyNatRange (n : Int) : List Nat := List.range n.toNat

/-- Python `range(a, b)` over ints. -/
def pyRange2 (a b : Int) : List Int :=
  (List.range (b - a).toNat).map (fun k : Nat => a + (k : Int))

/-- Runs `f` on each element in order, mirroring a Python
`for ...: if cond: self._result = r; return` loop: an exception propagates,
the first hit returns, otherwise the loop falls through. -/
def firstHit {α : Type} (l : List α) (f : α → Except PyExc (Option Nat)) :
    Except PyExc (Option Nat) :=
  match l with
  | [] => .ok none
  | a :: rest =>
    match f a with
    | .error e => .error e
    | .ok (some r) => .ok (some r)
    | .ok none => firstHit rest f

/-- `C4Board` state (src/game.py): columns of pieces (bottom of a column is
index 0), the configured `(cols, rows)` size, the connect run length, the
cached result code (0 none, 1 draw, 2 P1 win, 3 P2 win), whose turn it is
(`false` = Player 1), and the win-logging fields. -/
structure C4Board where
  _board : List (List Bool)
  size : Nat × Nat
  connect_num : Nat
  _result : Nat
  _win_reason : Nat
  _turn : Bool
  win_locs : List (Nat × Nat)
deriving DecidableEq, Repr

/-- `C4Board.__init__(cols, rows, connect_num)`. -/
def C4Board.init (cols rows connect_num : Nat) : C4Board :=
  { _board := List.replicate cols []
    size := (cols, rows)
    connect_num := connect_num
    _result := 0
    _win_reason := 0
    _turn := false
    win_locs := [] }

/-- One `(i, j)` probe of the "top left to bottom right" diagonal loop of
`check_result` (game.py lines 242-255): the guard conjuncts and the chained
comparison are evaluated left-to-right with Python short-circuiting, so a
list access only happens when every conjunct before it held. -/
def diag1At (bd : List (List Bool)) (i j : Nat) : Except PyExc (Option Nat) := do
  let c0 ← pyGetCol bd i
  if c0.length > j then do
    let c1 ← pyGetCol bd (i+1)
    if c1.length > j+1 then do
      let c2 ← pyGetCol bd (i+2)
      if c2.length > j+2 then do
        let c3 ← pyGetCol bd (i+3)
        if c3.length > j+3 then do
          let a ← pyGetCell c0 j
          let x ← pyGetCell c1 (j+1)
          if a = x then do
            let y ← pyGetCell c2 (j+2)
            if x = y then do
              let z ← pyGetCell c3 (j+3)
              if y = z then pure (some (if a then 3 else 2)) else pure none
            else pure none
          else pure none
        else pure none
      else pure none
    else pure none
  else pure none

/-- One `(i, j)` probe of the "top right to bottom left" diagonal loop
(game.py lines 258-271). Here `j` is an int and the offsets `j-1 .. j-3` can
be negative, in which case Python indexing counts from the end of the column. -/
def diag2At (bd : List (List Bool)) (i : Nat) (j : Int) : Except PyExc (Option Nat) := do
  let c0 ← pyGetCol bd i
  if (c0.length : Int) > j then do
    let c1 ← pyGetCol bd (i+1)
    if (c1.length : Int) > j-1 then do
      let c2 ← pyGetCol bd (i+2)
      if (c2.length : Int) > j-2 then do
        let c3 ← pyGetCol bd (i+3)
        if (c3.length : Int) > j-3 then do
          let a ← pyCellI c0 j
          let x ← pyCellI c1 (j-1)
          if a = x then do
            let y ← pyCellI c2 (j-2)
            if x = y then do
              let z ← pyCellI c3 (j-3)
              if y = z then pure (some (if a then 3 else 2)) else pure none
            else pure none
          else pure none
        else pure none
      else pure none
    else pure none
  else pure none

/-- One `(i, j)` probe of the row loop (game.py lines 275-289). -/
def horizAt (bd : List (List Bool)) (i j : Nat) : Except PyExc (Option Nat) := do
  let c0 ← pyGetCol bd i
  if c0.length > j then do
    let c1 ← pyGetCol bd (i+1)
    if c1.length > j then do
      let c2 ← pyGetCol bd (i+2)
      if c2.length > j then do
        let c3 ← pyGetCol bd (i+3)
        if c3.length > j then do
          let a ← pyGetCell c0 j
          let x ← pyGetCell c1 j
          if a = x then do
            let y ← pyGetCell c2 j
            if x = y then do
              let z ← pyGetCell c3 j
              if y = z then pure (some (if a then 3 else 2)) else pure none
            else pure none
          else pure none
        else pure none
      else pure none
    else pure none
  else pure none

/-- One `piece` probe of the column loop (game.py lines 297-302); the chained
comparison has no length guards, so `col[piece + 3]` can raise. -/
def vertAt (c : List Bool) (piece : Nat) : Except PyExc (Option Nat) := do
  let a ← pyGetCell c piece
  let x ← pyGetCell c (piece+1)
  if a = x then do
    let y ← pyGetCell c (piece+2)
    if x = y then do
      let z ← pyGetCell c (piece+3)
      if y = z then pure (some (if a then 3 else 2)) else pure none
    else pure none
  else pure none

/-- The "top left to bottom right" diagonal family of `check_result`. -/
def diag1Scan (bd : List (List Bool)) (size0 c : Nat) : Except PyExc (Option Nat) :=
  firstHit (pyNatRange ((size0 : Int) - c + 1)) fun i => do
    let ci ← pyGetCol bd i
    firstHit (pyNatRange ((ci.length : Int) - c + 1)) fun j => diag1At bd i j

/-- The "top right to bottom left" diagonal family of `check_result`. -/
def diag2Scan (bd : List (List Bool)) (size0 c : Nat) : Except PyExc (Option Nat) :=
  firstHit (pyNatRange ((size0 : Int) - c + 1)) fun i => do
    let ci ← pyGetCol bd i
    firstHit (pyRange2 ((c : Int) - 1) (ci.length : Int)) fun j => diag2At bd i j

/-- The row family of `check_result`. -/
def horizScan (bd : List (List Bool)) (size0 c : Nat) : Except PyExc (Option Nat) :=
  firstHit (pyNatRange ((size0 : Int) - c + 1)) fun i => do
    let ci ← pyGetCol bd i
    firstHit (List.range ci.length) fun j => horizAt bd i j

/-- The column family of `check_result`. -/
def vertScan (bd : List (List Bool)) (c : Nat) : Except PyExc (Option Nat) :=
  firstHit (List.range bd.length) fun col => do
    let cl ← pyGetCol bd col
    if cl.length < c then pure none
    else firstHit (pyNatRange ((cl.length : Int) - c + 1)) fun piece => vertAt cl piece

/-- `C4Board.check_result` (game.py lines 220-306), returning the new value of
`self._result`. The board-full draw test comes first, then the four scan
families in source order, then the fall-through `0`. -/
def C4Board.check_result (b : C4Board) : Except PyExc Nat :=
  if b._board.all (fun col => col.length == b.size.2) then .ok 1
  else
    match diag1Scan b._board b.size.1 b.connect_num with
    | .error e => .error e
    | .ok (some r) => .ok r
    | .ok none =>
      match diag2Scan b._board b.size.1 b.connect_num with
      | .error e => .error e
      | .ok (some r) => .ok r
      | .ok none =>
        match horizScan b._board b.size.1 b.connect_num with
        | .error e => .error e
        | .ok (some r) => .ok r
        | .ok none =>
          match vertScan b._board b.connect_num with
          | .error e => .error e
          | .ok (some r) => .ok r
          | .ok none => .ok 0

/-- `C4Board.make_move_at_column` (game.py lines 35-59): out-of-range or full
column is a `False` return with no mutation; otherwise append the mover's
piece, flip the turn, recompute the result, return `True`. -/
def C4Board.make_move_at_column (b : C4Board) (col : Int) : Except PyExc (Bool × C4Board) :=
  if col < 0 ∨ (b.size.1 : Int) ≤ col then .ok (false, b)
  else do
    let c ← pyGetCol b._board col.toNat
    if c.length = b.size.2 then pure (false, b)
    else do
      let b1 : C4Board := { b with _board := b._board.set col.toNat (c ++ [b._turn]),
                                   _turn := !b._turn }
      let r ← b1.check_result
      pure (true, { b1 with _result := r })

/-- `C4Board.delete_move_at_column` (game.py lines 61-84): no validation of
`col` — the raw Python indexing applies (negative wrap-around, `IndexError`
beyond either end); empty column is a `False` return; otherwise pop the top
piece, flip the turn back and clear the result and win metadata. -/
def C4Board.delete_move_at_column (b : C4Board) (col : Int) : Except PyExc (Bool × C4Board) := do
  let i ← pyResolveIdx b._board.length col
  let c ← pyGetCol b._board i
  if c.length = 0 then pure (false, b)
  else pure (true, { b with _board := b._board.set i c.dropLast
                            _turn := !b._turn
                            _result := 0
                            _win_reason := 0
                            win_locs := [] })

/-- Column chunk of the FEN encoding: `"2" if item else "1"` per piece. -/
def encodeCol (col : List Bool) : List Char :=
  col.map (fun item => if item then '2' else '1')

/-- `C4Board.get_fen` (game.py lines 161-203): the column chunks in reverse
board order, space separated, then a space and the turn digit. -/
def C4Board.get_fen (b : C4Board) : List Char :=
  List.intercalate [' '] ((b._board.map encodeCol).reverse) ++
    [' ', if b._turn then '2' else '1']

/-- Parsing of one FEN chunk in `set_position`: `'1'` appends Player 1,
`'2'` appends Player 2, every other character is silently skipped. -/
def parseChunk (chunk : List Char) : List Bool :=
  chunk.filterMap (fun ch =>
    if ch = '1' then some false else if ch = '2' then some true else none)

/-- Python `int(c)` on a single character: its digit value, `ValueError`
otherwise. -/
def pyIntChar (ch : Char) : Except PyExc Int :=
  if ch.isDigit then .ok ((ch.toNat : Int) - 48) else .error .valueError

/-- `C4Board.set_position` (game.py lines 107-159). The source first clears
`self._board`, reads `int(fen[-1])` for the turn (raising `IndexError` on an
empty string and `ValueError` on a non-digit), strips the last two characters,
splits on single spaces, parses each chunk and reverses. It performs no
validation whatsoever; `self.size`, `self._result` and the win metadata are
left untouched. -/
def C4Board.set_position (b : C4Board) (fen : List Char) : Except PyExc C4Board := do
  let lastc ← match fen.getLast? with
    | some ch => Except.ok ch
    | none => Except.error PyExc.indexError
  let tv ← pyIntChar lastc
  let chunks := ((fen.dropLast).dropLast).splitOn ' '
  pure { b with _board := (chunks.map parseChunk).reverse, _turn := tv == 2 }

/-- The list comprehension of `all_available_moves`, iterated over the given
indices: each iteration reads `self._board[i]` (which can raise) and keeps
`i` when the column is not full. -/
def availableMovesLoop (b : C4Board) (idxs : List Nat) : Except PyExc (List Nat) :=
  match idxs with
  | [] => .ok []
  | i :: rest => do
    let c ← pyGetCol b._board i
    let others ← availableMovesLoop b rest
    pure (if c.length < b.size.2 then i :: others else others)

/-- `C4Board.all_available_moves` (game.py lines 319-326): indices below the
configured column count whose column is not full, in ascending order. Reads
`self._board[i]` for every `i < size[0]`, so it raises if the stored column
list is shorter than the configured width. -/
def C4Board.all_available_moves (b : C4Board) : Except PyExc (List Nat) :=
  availableMovesLoop b (List.range b.size.1)

/-- `C4Engine` state (src/engine.py): the transposition table (a dict from
FEN string to evaluation, modeled as an insertion-ordered association list)
and the diagnostic lookup counter. `self.PLY_LIMIT` is set once in
`__init__` and never mutated, so it is passed explicitly to `negamax` /
`bestmoves` below; the stray write `self.lookups = 0` in `bestmoves` touches
an attribute that nothing else reads and is not modeled. -/
structure C4Engine where
  ttable : List (List Char × Int)
  _lookups : Int
deriving DecidableEq, Repr

/-- `C4Engine.__init__`. -/
def C4Engine.init : C4Engine := { ttable := [], _lookups := 0 }

/-- Python dict read `d.get(k)`. -/
def dictGet {κ ν : Type} [DecidableEq κ] (d : List (κ × ν)) (k : κ) : Option ν :=
  match d.find? (fun p => decide (p.1 = k)) with
  | some p => some p.2
  | none => none

/-- Python dict write `d[k] = v`: update in place if present, else append. -/
def dictSet {κ ν : Type} [DecidableEq κ] (d : List (κ × ν)) (k : κ) (v : ν) : List (κ × ν) :=
  if d.any (fun p => decide (p.1 = k)) then
    d.map (fun p => if p.1 = k then (k, v) else p)
  else d ++ [(k, v)]

/-- `C4Engine.evaluate_position` (engine.py lines 102-119). -/
def C4Engine.evaluate_position (b : C4Board) : Int :=
  match b._result with
  | 0 => 0
  | 1 => 0
  | 2 => 100
  | 3 => -100
  | _ => 0

/-- The move loop of `negamax` (engine.py lines 82-94): snapshot the FEN,
apply the move (return value ignored, as in the source), recurse through
`nm` with the negated swapped window, restore from the snapshot, track the
running maximum, raise alpha and cut off once `alpha >= beta`. -/
def negamaxLoop (nm : C4Board → Int → Int → C4Engine → Except PyExc (Int × C4Board × C4Engine))
    (b : C4Board) (moves : List Nat) (alpha beta bestValue : Int) (eng : C4Engine) :
    Except PyExc (Int × C4Board × C4Engine) :=
  match moves with
  | [] => .ok (bestValue, b, eng)
  | m :: rest => do
    let currfen := b.get_fen
    let (_, b2) ← b.make_move_at_column (m : Int)
    let (v, b3, e2) ← nm b2 (-beta) (-alpha) eng
    let b4 ← b3.set_position currfen
    let value := -v
    let bestValue' := max bestValue value
    let alpha' := max alpha value
    if alpha' ≥ beta then .ok (bestValue', b4, e2)
    else negamaxLoop nm b4 rest alpha' beta bestValue' e2

/-- `C4Engine.negamax` (engine.py lines 57-99). `fuel` is the remaining
search depth `PLY_LIMIT - ply`, so `fuel = 0` is exactly the
`ply >= self.PLY_LIMIT` cutoff and each recursive call (`ply + 1`) has one
unit less. Order of the early returns follows the source: ply cutoff, win
for the side that just moved, draw, transposition-table hit. After the move
loop the best value is stored keyed by the FEN of the (restored) board. -/
def C4Engine.negamax (fuel : Nat) (eng : C4Engine) (b : C4Board) (alpha beta : Int) :
    Except PyExc (Int × C4Board × C4Engine) :=
  match fuel with
  | 0 => .ok (C4Engine.evaluate_position b, b, eng)
  | fuel' + 1 =>
    if 2 ≤ b._result then .ok (-100, b, eng)
    else if b._result = 1 then .ok (0, b, eng)
    else
      match dictGet eng.ttable b.get_fen with
      | some v => .ok (v, b, { eng with _lookups := eng._lookups + 1 })
      | none => do
        let moves ← b.all_available_moves
        let (bestValue, b', e') ←
          negamaxLoop (fun bb a bb2 e => C4Engine.negamax fuel' e bb a bb2) b moves
            alpha beta (-100) eng
        pure (bestValue, b', { e' with ttable := dictSet e'.ttable b'.get_fen bestValue })

/-- Python `max(xs)`: `ValueError` on an empty sequence. -/
def pyMax (l : List Int) : Except PyExc Int :=
  match l with
  | [] => .error .valueError
  | x :: xs => .ok (xs.foldl max x)

/-- The move loop of `bestmoves` (engine.py lines 35-44): apply each
available move, evaluate it with `negamax` (negated), restore the board from
the snapshot taken before the loop, and record the score in the `evals`
dict. -/
def bestmovesLoop (nm : C4Board → C4Engine → Except PyExc (Int × C4Board × C4Engine))
    (currfen : List Char) (b : C4Board) (moves : List Nat) (evals : List (Nat × Int))
    (eng : C4Engine) : Except PyExc (List (Nat × Int) × C4Board × C4Engine) :=
  match moves with
  | [] => .ok (evals, b, eng)
  | col :: rest => do
    let (_, b2) ← b.make_move_at_column (col : Int)
    let (v, b3, e2) ← nm b2 eng
    let ev := -v
    let b4 ← b3.set_position currfen
    bestmovesLoop nm currfen b4 rest (dictSet evals col ev) e2

/-- `C4Engine.bestmoves` (engine.py lines 24-55): snapshot the FEN, score
every available move with `negamax(board, -100, 100, 0)` (so the callee gets
`fuel = plyLimit`), take the maximum score (Python `max`, which raises
`ValueError` on an empty dict), and return every column achieving it, with
the diagnostic counter reset. -/
def C4Engine.bestmoves (eng : C4Engine) (b : C4Board) (plyLimit : Nat) :
    Except PyExc (List Nat × C4Board × C4Engine) := do
  let currfen := b.get_fen
  let moves ← b.all_available_moves
  let (evals, b1, e1) ←
    bestmovesLoop (fun bb e => C4Engine.negamax plyLimit e bb (-100) 100) currfen b moves [] eng
  let maxEval ← pyMax (evals.map Prod.snd)
  let indicies := (evals.map Prod.fst).filter (fun i =>
    match dictGet evals i with
    | some v => v == maxEval
    | none => false)
  pure (indicies, b1, { e1 with _lookups := 0 })

/-- The example board of the `get_fen`/`set_position` docstrings: columns
(bottom to top, left to right) `2 / 2 / 211 / 11 / 2 / 12 / 1`, Player 2 to
move, whose FEN is `1 12 2 11 211 2 2 2`. -/
def exampleFenBoard : C4Board :=
  { _board := [[true], [true], [true, false, false], [false, false], [true], [false, true], [false]]
    size := (7, 6), connect_num := 4, _result := 0, _win_reason := 0, _turn := true
    win_locs := [] }

/-- Chains a sequence of moves, ignoring the boolean status like the driver
does for legal moves; used to exhibit concrete reachable positions. -/
def applyMoves (b : C4Board) (ms : List Int) : Except PyExc C4Board :=
  match ms with
  | [] => .ok b
  | m :: rest => (b.make_move_at_column m) >>= fun p => applyMoves p.2 rest

/-- A completely full 4x4 board whose column 0 is a Player-1 vertical run of
the configured length 4. -/
def c4FullWinBoard : C4Board :=
  { _board := [[false, false, false, false], [true, true, true, true],
               [true, true, true, true], [false, false, false, false]]
    size := (4, 4), connect_num := 4, _result := 0, _win_reason := 0, _turn := false
    win_locs := [] }

/-- The board after Player 1 drops into column 0 of an empty 2x2 board. -/
def c8MidBoard : C4Board :=
  { _board := [[false], []], size := (2, 2), connect_num := 4, _result := 0,
    _win_reason := 0, _turn := true, win_locs := [] }

/-- A 2x2 board with one Player-1 piece in column 0 and one Player-2 piece
in column 1. -/
def c10Board : C4Board :=
  { _board := [[false], [true]], size := (2, 2), connect_num := 4, _result := 0,
    _win_reason := 0, _turn := true, win_locs := [] }

/-- `x` computes without raising. -/
def isOkE {α : Type} (x : Except PyExc α) : Prop := ∃ a, x = .ok a

/-- Every value stored in the engine's transposition table lies in
`[-100, 100]`. -/
def TtBounded (e : C4Engine) : Prop := ∀ p ∈ e.ttable, -100 ≤ p.2 ∧ p.2 ≤ 100

/-! ### Utility lemmas about the `Except` monad and lists -/

@[simp] theorem exPure_eq_ok {ε α : Type} (a : α) :
    (pure a : Except ε α) = .ok a := rfl

@[simp] theorem exBind_ok {ε α β : Type} (a : α) (f : α → Except ε β) :
    (Except.ok a >>= f) = f a := rfl

@[simp] theorem exBind_err {ε α β : Type} (e : ε) (f : α → Except ε β) :
    ((Except.error e : Except ε α) >>= f) = .error e := rfl

theorem exBind_eq_ok {ε α β : Type} {x : Except ε α} {f : α → Except ε β} {r : β} :
    (x >>= f) = .ok r ↔ ∃ a, x = .ok a ∧ f a = .ok r := by
  cases x with
  | ok a => simp
  | error e =>
    constructor
    · intro h; cases h
    · rintro ⟨a, ha, -⟩; cases ha

theorem set_of_get?_eq {α : Type} (l : List α) (i : Nat) (a : α) (h : l.get? i = some a) :
    l.set i a = l := by
  induction l generalizing i with
  | nil => simp at h
  | cons x xs ih =>
    cases i with
    | zero =>
      have hx : x = a := by simpa using h
      simp [hx]
    | succ n =>
      have h' : xs.get? n = some a := h
      show x :: xs.set n a = x :: xs
      rw [ih n h']

/-! ### The FEN round-trip -/

theorem parseChunk_encodeCol (col : List Bool) : parseChunk (encodeCol col) = col := by
  induction col with
  | nil => rfl
  | cons p rest ih => cases p <;> simp [parseChunk, encodeCol, List.filterMap_cons] at * <;>
      simpa [parseChunk, encodeCol] using ih

theorem space_not_mem_encodeCol (col : List Bool) : ' ' ∉ encodeCol col := by
  simp only [encodeCol, List.mem_map, not_exists]
  rintro p ⟨-, hp⟩
  cases p <;> simp at hp

theorem map_parseChunk_encodeCol (bs : List (List Bool)) :
    bs.map (parseChunk ∘ encodeCol) = bs := by
  induction bs with
  | nil => rfl
  | cons c rest ih => simp [Function.comp, parseChunk_encodeCol, ih]

theorem decode_tokens (bs : List (List Bool)) :
    (((bs.map encodeCol).reverse).map parseChunk).reverse = bs := by
  rw [List.map_reverse, List.reverse_reverse, List.map_map, map_parseChunk_encodeCol]

/-- Round-trip at the heart of both the save/restore format and the engine's
snapshot/restore discipline: decoding the encoding of `b` into any board `c`
rewrites exactly `b`'s columns and turn into `c`, leaving `c`'s configured
size, connect length, cached result and win metadata alone. Needs at least
one column (a zero-column board re-decodes as one empty column). -/
theorem set_position_get_fen (b c : C4Board) (h : b._board ≠ []) :
    c.set_position b.get_fen = .ok { c with _board := b._board, _turn := b._turn } := by
  have htok : (b._board.map encodeCol).reverse ≠ [] := by simpa using h
  have hfen : b.get_fen =
      (List.intercalate [' '] ((b._board.map encodeCol).reverse) ++ [' ']) ++
        [if b._turn then '2' else '1'] := by
    simp [C4Board.get_fen]
  have hlast : (b.get_fen).getLast? = some (if b._turn then '2' else '1') := by
    rw [hfen]; exact List.getLast?_concat _
  have hdrop : ((b.get_fen).dropLast).dropLast =
      List.intercalate [' '] ((b._board.map encodeCol).reverse) := by
    rw [hfen, List.dropLast_concat, List.dropLast_concat]
  have hnosp : ∀ l ∈ (b._board.map encodeCol).reverse, ' ' ∉ l := by
    intro l hl
    rw [List.mem_reverse, List.mem_map] at hl
    obtain ⟨col, -, rfl⟩ := hl
    exact space_not_mem_encodeCol col
  have hsplit : (((b.get_fen).dropLast).dropLast).splitOn ' ' =
      (b._board.map encodeCol).reverse := by
    rw [hdrop]
    exact List.splitOn_intercalate ((b._board.map encodeCol).reverse) ' ' hnosp htok
  cases hturn : b._turn with
  | false =>
    rw [hturn] at hlast
    simp only [C4Board.set_position, hlast, if_false, Bool.false_eq_true]
    simp only [exBind_ok, pyIntChar, hsplit]
    norm_num
    simp [hturn, List.map_reverse, List.map_map, map_parseChunk_encodeCol]
  | true =>
    rw [hturn] at hlast
    simp only [C4Board.set_position, hlast, if_true]
    simp only [exBind_ok, pyIntChar, hsplit]
    norm_num
    simp [hturn, List.map_reverse, List.map_map, map_parseChunk_encodeCol]

theorem pyGetCol_ok_iff {bd : List (List Bool)} {i : Nat} {c : List Bool} :
    pyGetCol bd i = .ok c ↔ bd.get? i = some c := by
  unfold pyGetCol; cases h : bd.get? i <;> simp

theorem pyGetCell_ok_iff {c : List Bool} {j : Nat} {x : Bool} :
    pyGetCell c j = .ok x ↔ c.get? j = some x := by
  unfold pyGetCell; cases h : c.get? j <;> simp

/-- C1: decoding the string produced by encoding a board `b` reproduces `b`'s
columns and turn exactly — `set_position (get_fen b)` rewrites precisely
`b`'s piece columns and player to move into the receiving board. Any board
with at least one column (in particular every board of configured dimensions
`≥ 1`, hence every reachable board) satisfies the hypothesis. -/
theorem c1_encode_decode_roundtrip (b c : C4Board) (h : b._board ≠ []) :
    c.set_position b.get_fen = .ok { c with _board := b._board, _turn := b._turn } :=
  set_position_get_fen b c h

theorem c1_encode_decode_roundtrip_witness :
    exampleFenBoard._board ≠ [] ∧
    (C4Board.init 7 6 4).set_position exampleFenBoard.get_fen =
      .ok { C4Board.init 7 6 4 with
              _board := exampleFenBoard._board
              _turn := exampleFenBoard._turn } :=
  ⟨by decide, c1_encode_decode_roundtrip exampleFenBoard (C4Board.init 7 6 4) (by decide)⟩

/-- C3 (code bug): on a 4x4 board with `connect_num = 3`, the legal move
sequence 0,1,0,1 succeeds, and the fifth move — dropping Player 1's piece
onto column 0 and completing a vertical run of three — raises `IndexError`
inside `check_result` instead of declaring Player 1 the winner: the scan
windows are hard-coded to four cells (`piece+1 .. piece+3`) even though the
loop bounds honor `connect_num`, so the column scan reads index 3 of the
3-high column. -/
theorem c3_connect3_win_crashes :
    applyMoves (C4Board.init 4 4 3) [0, 1, 0, 1] =
      .ok { C4Board.init 4 4 3 with _board := [[false, false], [true, true], [], []] } ∧
    applyMoves (C4Board.init 4 4 3) [0, 1, 0, 1, 0] = .error .indexError := by decide

/-- C4 counterexample: on a completely full board containing a winning run,
`check_result` reports Draw (1), not the player's win (2) — the board-full
test precedes the win scans. The first conjunct shows the column scan itself
would have found the Player-1 win. -/
theorem c4_full_board_win_reported_as_draw :
    vertScan c4FullWinBoard._board c4FullWinBoard.connect_num = .ok (some 2) ∧
    c4FullWinBoard.check_result = .ok 1 := by decide

/-- C5 counterexample: `set_position` raises no FormatError on malformed
input. `"13 2"` contains the invalid piece character `'3'` and only one
column token instead of the configured 7, yet decoding succeeds, silently
dropping the `'3'` and leaving a 1-column board under a 7-column `size`;
`"1 1 1 1 1 1 1 3"` has the invalid turn marker `'3'`, yet decoding succeeds
and silently makes it Player 1's turn. -/
theorem c5_malformed_input_accepted :
    (C4Board.init 7 6 4).set_position ['1', '3', ' ', '2'] =
      .ok { C4Board.init 7 6 4 with _board := [[false]], _turn := true } ∧
    (C4Board.init 7 6 4).set_position
        ['1', ' ', '1', ' ', '1', ' ', '1', ' ', '1', ' ', '1', ' ', '1', ' ', '3'] =
      .ok { C4Board.init 7 6 4 with
              _board := [[false], [false], [false], [false], [false], [false], [false]]
              _turn := false } := by decide

/-- C5 amended: `set_position` performs no format validation and never raises
a FormatError (no such error exists in the source): whenever the final
character of the input is a decimal digit, decoding succeeds, the board's
column list becomes exactly one column per token of the remaining input
(even when that count differs from the configured width, which stays
untouched), and the cached result is left as it was. Only an empty input
(`IndexError`) or a non-digit final character (`ValueError`) fails. -/
theorem c5_no_validation (b : C4Board) (fen : List Char) (ch : Char)
    (hlast : fen.getLast? = some ch) (hdig : ch.isDigit = true) :
    ∃ b', b.set_position fen = .ok b' ∧
      b'._board.length = (((fen.dropLast).dropLast).splitOn ' ').length ∧
      b'.size = b.size ∧ b'._result = b._result := by
  have hpi : pyIntChar ch = .ok ((ch.toNat : Int) - 48) := by simp [pyIntChar, hdig]
  refine ⟨{ b with
      _board := ((((fen.dropLast).dropLast).splitOn ' ').map parseChunk).reverse
      _turn := ((ch.toNat : Int) - 48) == 2 }, ?_, by simp, rfl, rfl⟩
  simp [C4Board.set_position, hlast, hpi]

theorem c5_no_validation_witness :
    (['1', '3', ' ', '2'].getLast? = some '2') ∧ ('2'.isDigit = true) ∧
    ∃ b', (C4Board.init 7 6 4).set_position ['1', '3', ' ', '2'] = .ok b' ∧
      b'._board.length = (((['1', '3', ' ', '2'].dropLast).dropLast).splitOn ' ').length ∧
      b'.size = (C4Board.init 7 6 4).size ∧ b'._result = (C4Board.init 7 6 4)._result :=
  ⟨by decide, by decide,
    c5_no_validation (C4Board.init 7 6 4) ['1', '3', ' ', '2'] '2' (by decide) (by decide)⟩

/-- C6 (code bug): a board with zero legal moves passed to `bestmoves` makes
the source crash with an uncaught `ValueError` raised by
`max(evals.values())` on an empty sequence — not the explicit, clearly
distinguishable InvalidState failure the specification requires (the source
defines no such error at all). -/
theorem c6_bestmoves_no_moves_valueerror :
    ({ _board := [[false]], size := (1, 1), connect_num := 4, _result := 1,
       _win_reason := 0, _turn := true, win_locs := [] } : C4Board).all_available_moves =
      .ok [] ∧
    C4Engine.bestmoves C4Engine.init
      { _board := [[false]], size := (1, 1), connect_num := 4, _result := 1,
        _win_reason := 0, _turn := true, win_locs := [] } 10 = .error .valueError := by
  decide

/-- C8: if `make_move_at_column col` succeeds (returns `True`), then
`delete_move_at_column col` succeeds as well and the resulting board's
canonical encoding is exactly the encoding before the move/undo pair. -/
theorem c8_move_undo_restores_fen (b : C4Board) (col : Int) (b' : C4Board)
    (h : b.make_move_at_column col = .ok (true, b')) :
    ∃ b'', b'.delete_move_at_column col = .ok (true, b'') ∧ b''.get_fen = b.get_fen := by
  by_cases hcol : col < 0 ∨ (b.size.1 : Int) ≤ col
  · simp [C4Board.make_move_at_column, hcol] at h
  · simp only [C4Board.make_move_at_column, if_neg hcol] at h
    rcases exBind_eq_ok.mp h with ⟨c, hc, h2⟩
    have hget : b._board.get? col.toNat = some c := pyGetCol_ok_iff.mp hc
    by_cases hfull : c.length = b.size.2
    · rw [if_pos hfull] at h2
      simp [exPure_eq_ok] at h2
    · rw [if_neg hfull] at h2
      rcases exBind_eq_ok.mp h2 with ⟨r, hr, h3⟩
      simp only [exPure_eq_ok, Except.ok.injEq, Prod.mk.injEq, true_and] at h3
      obtain ⟨hlt, -⟩ := List.get?_eq_some.mp hget
      push_neg at hcol
      obtain ⟨h0, h1⟩ := hcol
      subst h3
      refine ⟨{ b with _result := 0, _win_reason := 0, win_locs := [] }, ?_, by
        simp [C4Board.get_fen]⟩
      have hres : pyResolveIdx (b._board.set col.toNat (c ++ [b._turn])).length col =
          .ok col.toNat := by
        have hlen : (b._board.set col.toNat (c ++ [b._turn])).length = b._board.length :=
          List.length_set _ _ _
        rw [pyResolveIdx, if_pos h0, if_pos (by rw [hlen]; omega)]
      have hgc : pyGetCol (b._board.set col.toNat (c ++ [b._turn])) col.toNat =
          .ok (c ++ [b._turn]) := by
        rw [pyGetCol, List.get?_set_eq, hget]
        rfl
      simp only [C4Board.delete_move_at_column, hres, exBind_ok, hgc]
      rw [if_neg (by simp)]
      simp [List.dropLast_concat, List.set_set, set_of_get?_eq _ _ _ hget, Bool.not_not]

theorem c8_move_undo_restores_fen_witness :
    (C4Board.init 2 2 4).make_move_at_column 0 = .ok (true, c8MidBoard) ∧
    ∃ b'', c8MidBoard.delete_move_at_column 0 = .ok (true, b'') ∧
      b''.get_fen = (C4Board.init 2 2 4).get_fen :=
  ⟨by decide, c8_move_undo_restores_fen (C4Board.init 2 2 4) 0 c8MidBoard (by decide)⟩

/-- C10 counterexample: a negative column index in `[-columnCount, -1]`
whose aliased column is empty returns `False` without removing anything, so
the claim's unconditional "removing the topmost piece of an unintended
column and returning true" fails on the empty board at `col = -1`. -/
theorem c10_negative_index_empty_returns_false :
    (-(7 : Int) ≤ -1 ∧ (-1 : Int) < 0) ∧
    (C4Board.init 7 6 4).delete_move_at_column (-1) =
      .ok (false, C4Board.init 7 6 4) := by decide

/-- C10 amended: `delete_move_at_column` performs no validation, unlike
`make_move_at_column`: for every index `col ≥ columnCount` it raises
`IndexError` instead of returning `False`; for every negative `col` with
`-col ≤ columnCount` it aliases to column `columnCount + col` (Python
negative indexing) and — when that column is nonempty — removes its topmost
piece and returns `True`; when the aliased column is empty it returns
`False` without mutation. -/
theorem c10_delete_no_validation (b : C4Board) (hw : b._board.length = b.size.1) :
    (∀ col : Int, (b.size.1 : Int) ≤ col →
      b.delete_move_at_column col = .error .indexError) ∧
    (∀ col : Int, ∀ c : List Bool, col < 0 → (-col).toNat ≤ b.size.1 →
      b._board.get? (b.size.1 - (-col).toNat) = some c → c ≠ [] →
      b.delete_move_at_column col = .ok (true,
        { b with
            _board := b._board.set (b.size.1 - (-col).toNat) c.dropLast
            _turn := !b._turn
            _result := 0
            _win_reason := 0
            win_locs := [] })) ∧
    (∀ col : Int, col < 0 → (-col).toNat ≤ b.size.1 →
      b._board.get? (b.size.1 - (-col).toNat) = some [] →
      b.delete_move_at_column col = .ok (false, b)) := by
  refine ⟨?_, ?_, ?_⟩
  · intro col hcol
    have h0 : 0 ≤ col := le_trans (Int.natCast_nonneg _) hcol
    have hnl : ¬(col < (b._board.length : Int)) := by rw [hw]; omega
    simp [C4Board.delete_move_at_column, pyResolveIdx, h0, hnl]
  · intro col c hneg hle hget hne
    have h0 : ¬(0 ≤ col) := by omega
    have hle' : (-col).toNat ≤ b._board.length := by rw [hw]; exact hle
    have hget' : b._board.get? (b._board.length - (-col).toNat) = some c := by
      rw [hw]; exact hget
    have hnz : ¬(c.length = 0) := by simpa [List.length_eq_zero] using hne
    have hres : pyResolveIdx b._board.length col = .ok (b._board.length - (-col).toNat) := by
      rw [pyResolveIdx, if_neg h0, if_pos hle']
    have hcg : pyGetCol b._board (b._board.length - (-col).toNat) = .ok c :=
      pyGetCol_ok_iff.mpr hget'
    simp only [C4Board.delete_move_at_column, hres, exBind_ok, hcg, if_neg hnz]
    rw [hw]
    rfl
  · intro col hneg hle hget
    have h0 : ¬(0 ≤ col) := by omega
    have hle' : (-col).toNat ≤ b._board.length := by rw [hw]; exact hle
    have hget' : b._board.get? (b._board.length - (-col).toNat) = some [] := by
      rw [hw]; exact hget
    have hres : pyResolveIdx b._board.length col = .ok (b._board.length - (-col).toNat) := by
      rw [pyResolveIdx, if_neg h0, if_pos hle']
    have hcg : pyGetCol b._board (b._board.length - (-col).toNat) = .ok [] :=
      pyGetCol_ok_iff.mpr hget'
    simp only [C4Board.delete_move_at_column, hres, exBind_ok, hcg]
    rfl

theorem c10_delete_no_validation_witness :
    c10Board.delete_move_at_column 5 = .error .indexError ∧
    c10Board.delete_move_at_column (-1) =
      .ok (true, { c10Board with _board := [[false], []], _turn := false }) := by
  constructor
  · exact (c10_delete_no_validation c10Board (by decide)).1 5 (by decide)
  · have h := (c10_delete_no_validation c10Board (by decide)).2.1 (-1) [true]
      (by decide) (by decide) (by decide) (by decide)
    rw [h]; decide

/-! ### The scan families only ever report results 2 or 3 -/

theorem firstHit_ok_some {α : Type} {l : List α} {f : α → Except PyExc (Option Nat)} {r : Nat}
    (h : firstHit l f = .ok (some r)) : ∃ a ∈ l, f a = .ok (some r) := by
  induction l with
  | nil => cases h
  | cons a rest ih =>
    unfold firstHit at h
    cases hfa : f a with
    | error e => rw [hfa] at h; cases h
    | ok o =>
      rw [hfa] at h
      cases o with
      | some v => cases h; exact ⟨a, List.mem_cons_self a rest, hfa⟩
      | none =>
        obtain ⟨x, hx, hfx⟩ := ih h
        exact ⟨x, List.mem_cons_of_mem a hx, hfx⟩

theorem diag1At_some {bd : List (List Bool)} {i j : Nat} {r : Nat}
    (h : diag1At bd i j = .ok (some r)) : r = 2 ∨ r = 3 := by
  simp only [diag1At, bind, Except.bind, pure, Except.pure] at h
  repeat' split at h
  all_goals (try cases h)
  all_goals simp_all

theorem diag2At_some {bd : List (List Bool)} {i : Nat} {j : Int} {r : Nat}
    (h : diag2At bd i j = .ok (some r)) : r = 2 ∨ r = 3 := by
  simp only [diag2At, bind, Except.bind, pure, Except.pure] at h
  repeat' split at h
  all_goals (try cases h)
  all_goals simp_all

theorem horizAt_some {bd : List (List Bool)} {i j : Nat} {r : Nat}
    (h : horizAt bd i j = .ok (some r)) : r = 2 ∨ r = 3 := by
  simp only [horizAt, bind, Except.bind, pure, Except.pure] at h
  repeat' split at h
  all_goals (try cases h)
  all_goals simp_all

theorem vertAt_some {c : List Bool} {piece : Nat} {r : Nat}
    (h : vertAt c piece = .ok (some r)) : r = 2 ∨ r = 3 := by
  simp only [vertAt, bind, Except.bind, pure, Except.pure] at h
  repeat' split at h
  all_goals (try cases h)
  all_goals simp_all

theorem diag1Scan_some {bd : List (List Bool)} {s c r : Nat}
    (h : diag1Scan bd s c = .ok (some r)) : r = 2 ∨ r = 3 := by
  obtain ⟨i, -, hi⟩ := firstHit_ok_some h
  rcases exBind_eq_ok.mp hi with ⟨ci, -, hinner⟩
  obtain ⟨j, -, hj⟩ := firstHit_ok_some hinner
  exact diag1At_some hj

theorem diag2Scan_some {bd : List (List Bool)} {s c r : Nat}
    (h : diag2Scan bd s c = .ok (some r)) : r = 2 ∨ r = 3 := by
  obtain ⟨i, -, hi⟩ := firstHit_ok_some h
  rcases exBind_eq_ok.mp hi with ⟨ci, -, hinner⟩
  obtain ⟨j, -, hj⟩ := firstHit_ok_some hinner
  exact diag2At_some hj

theorem horizScan_some {bd : List (List Bool)} {s c r : Nat}
    (h : horizScan bd s c = .ok (some r)) : r = 2 ∨ r = 3 := by
  obtain ⟨i, -, hi⟩ := firstHit_ok_some h
  rcases exBind_eq_ok.mp hi with ⟨ci, -, hinner⟩
  obtain ⟨j, -, hj⟩ := firstHit_ok_some hinner
  exact horizAt_some hj

theorem vertScan_some {bd : List (List Bool)} {c r : Nat}
    (h : vertScan bd c = .ok (some r)) : r = 2 ∨ r = 3 := by
  obtain ⟨col, -, hcol⟩ := firstHit_ok_some h
  rcases exBind_eq_ok.mp hcol with ⟨cl, -, hinner⟩
  by_cases hlt : cl.length < c
  · rw [if_pos hlt] at hinner; cases hinner
  · rw [if_neg hlt] at hinner
    obtain ⟨p, -, hp⟩ := firstHit_ok_some hinner
    exact vertAt_some hp

/-- C4 amended: `check_result` reports Draw (1) exactly when every column is
full — even when a qualifying winning run exists, because the board-full test
precedes all four win scans. Wins are only ever reported on non-full boards,
and the scans themselves can only produce 2 or 3. -/
theorem c4_result_draw_iff_board_full (b : C4Board) :
    b.check_result = .ok 1 ↔ ∀ col ∈ b._board, col.length = b.size.2 := by
  constructor
  · intro h
    by_cases hfull : b._board.all (fun col => col.length == b.size.2)
    · simpa [List.all_eq_true] using hfull
    · exfalso
      rw [C4Board.check_result, if_neg hfull] at h
      cases h1 : diag1Scan b._board b.size.1 b.connect_num with
      | error e => rw [h1] at h; cases h
      | ok o1 =>
        rw [h1] at h
        cases o1 with
        | some r =>
          simp only at h
          cases h
          rcases diag1Scan_some h1 with h' | h' <;> cases h'
        | none =>
        cases h2 : diag2Scan b._board b.size.1 b.connect_num with
        | error e => rw [h2] at h; cases h
        | ok o2 =>
          rw [h2] at h
          cases o2 with
          | some r =>
            simp only at h
            cases h
            rcases diag2Scan_some h2 with h' | h' <;> cases h'
          | none =>
          cases h3 : horizScan b._board b.size.1 b.connect_num with
          | error e => rw [h3] at h; cases h
          | ok o3 =>
            rw [h3] at h
            cases o3 with
            | some r =>
              simp only at h
              cases h
              rcases horizScan_some h3 with h' | h' <;> cases h'
            | none =>
            cases h4 : vertScan b._board b.connect_num with
            | error e => rw [h4] at h; cases h
            | ok o4 =>
              rw [h4] at h
              cases o4 with
              | some r =>
                simp only at h
                cases h
                rcases vertScan_some h4 with h' | h' <;> cases h'
              | none => cases h
  · intro h
    have hfull : b._board.all (fun col => col.length == b.size.2) := by
      simpa [List.all_eq_true] using h
    rw [C4Board.check_result, if_pos hfull]

/-! ### `bestmoves` restores the pieces and the turn (but not the result) -/

theorem availableMovesLoop_mem {b : C4Board} {idxs ms : List Nat}
    (h : availableMovesLoop b idxs = .ok ms) :
    ∀ m ∈ ms, m ∈ idxs ∧ ∃ c, b._board.get? m = some c ∧ c.length < b.size.2 := by
  induction idxs generalizing ms with
  | nil =>
    cases h
    intro m hm; cases hm
  | cons i rest ih =>
    unfold availableMovesLoop at h
    rcases exBind_eq_ok.mp h with ⟨c, hc, h2⟩
    rcases exBind_eq_ok.mp h2 with ⟨others, hothers, h3⟩
    have hget := pyGetCol_ok_iff.mp hc
    simp only [exPure_eq_ok, Except.ok.injEq] at h3
    subst h3
    intro m hm
    by_cases hfull : c.length < b.size.2
    · rw [if_pos hfull] at hm
      rcases List.mem_cons.mp hm with rfl | hm'
      · exact ⟨List.mem_cons_self _ _, c, hget, hfull⟩
      · obtain ⟨hmem, hrest⟩ := ih hothers m hm'
        exact ⟨List.mem_cons_of_mem _ hmem, hrest⟩
    · rw [if_neg hfull] at hm
      obtain ⟨hmem, hrest⟩ := ih hothers m hm
      exact ⟨List.mem_cons_of_mem _ hmem, hrest⟩

theorem bestmovesLoop_restore {nm : C4Board → C4Engine → Except PyExc (Int × C4Board × C4Engine)}
    {currfen : List Char} :
    ∀ {moves : List Nat} {b : C4Board} {evals : List (Nat × Int)} {eng : C4Engine}
      {out : List (Nat × Int) × C4Board × C4Engine},
      bestmovesLoop nm currfen b moves evals eng = .ok out →
      out.2.1 = b ∨ ∃ bp : C4Board, bp.set_position currfen = .ok out.2.1 := by
  intro moves
  induction moves with
  | nil =>
    intro b evals eng out h
    cases h
    exact Or.inl rfl
  | cons m rest ih =>
    intro b evals eng out h
    unfold bestmovesLoop at h
    rcases exBind_eq_ok.mp h with ⟨p, hp, h2⟩
    rcases exBind_eq_ok.mp h2 with ⟨⟨v, b3, e2⟩, hnm, h3⟩
    rcases exBind_eq_ok.mp h3 with ⟨b4, hb4, h4⟩
    rcases ih h4 with heq | hex
    · exact Or.inr ⟨b3, heq ▸ hb4⟩
    · exact Or.inr hex

/-- C2 counterexample: `bestmoves` does not restore the cached result. On an
empty 1x1 board (result 0, Ongoing) the call returns normally and restores
pieces and turn, but leaves `_result = 1` — the Draw computed for the
explored child — so `get_result()` afterwards reports a finished game on an
untouched, still-empty board. -/
theorem c2_bestmoves_leaves_stale_result :
    (C4Board.init 1 1 4)._result = 0 ∧
    C4Engine.bestmoves C4Engine.init (C4Board.init 1 1 4) 10 =
      .ok ([0], { C4Board.init 1 1 4 with _result := 1 }, C4Engine.init) := by decide

/-- C2 amended: whenever `bestmoves` returns normally, the board's pieces and
turn are exactly as before the call (each loop iteration ends by restoring
from the snapshot encoding, and decoding an encoding reproduces columns and
turn); the cached result, however, is *not* part of the restored state — see
the counterexample. -/
theorem c2_bestmoves_restores_pieces_and_turn (eng : C4Engine) (b : C4Board) (plyLimit : Nat)
    (mvs : List Nat) (b' : C4Board) (e' : C4Engine)
    (h : C4Engine.bestmoves eng b plyLimit = .ok (mvs, b', e')) :
    b'._board = b._board ∧ b'._turn = b._turn := by
  unfold C4Engine.bestmoves at h
  rcases exBind_eq_ok.mp h with ⟨moves, hmoves, h2⟩
  rcases exBind_eq_ok.mp h2 with ⟨⟨evals, b1, e1⟩, hloop, h3⟩
  rcases exBind_eq_ok.mp h3 with ⟨mx, hmx, h4⟩
  simp only [exPure_eq_ok, Except.ok.injEq, Prod.mk.injEq] at h4
  obtain ⟨-, hb1, -⟩ := h4
  subst hb1
  rcases bestmovesLoop_restore hloop with heq | ⟨bp, hbp⟩
  · have hb : b1 = b := heq
    rw [hb]; exact ⟨rfl, rfl⟩
  · have hbp' : bp.set_position b.get_fen = .ok b1 := hbp
    cases moves with
    | nil =>
      cases hloop
      exact ⟨rfl, rfl⟩
    | cons m rest =>
      obtain ⟨-, c, hget, -⟩ :=
        availableMovesLoop_mem hmoves m (List.mem_cons_self m rest)
      obtain ⟨hlt, -⟩ := List.get?_eq_some.mp hget
      have hne : b._board ≠ [] := by
        intro hnil
        rw [hnil] at hlt
        simp at hlt
      rw [set_position_get_fen b bp hne] at hbp'
      cases hbp'
      exact ⟨rfl, rfl⟩

theorem c2_bestmoves_restores_pieces_and_turn_witness :
    ({ C4Board.init 1 1 4 with _result := 1 } : C4Board)._board = (C4Board.init 1 1 4)._board ∧
    ({ C4Board.init 1 1 4 with _result := 1 } : C4Board)._turn = (C4Board.init 1 1 4)._turn :=
  c2_bestmoves_restores_pieces_and_turn C4Engine.init (C4Board.init 1 1 4) 10 [0]
    { C4Board.init 1 1 4 with _result := 1 } C4Engine.init (by decide)

/-! ### Totality of `check_result` in the shipped configuration (connect 4) -/

theorem isOkE_bind {α β : Type} {x : Except PyExc α} {f : α → Except PyExc β}
    (hx : isOkE x) (hf : ∀ a, x = .ok a → isOkE (f a)) : isOkE (x >>= f) := by
  obtain ⟨a, ha⟩ := hx
  rw [ha, exBind_ok]
  exact hf a ha

theorem isOkE_ite {α : Type} {P : Prop} [Decidable P] {x y : Except PyExc α}
    (hx : P → isOkE x) (hy : ¬P → isOkE y) : isOkE (if P then x else y) := by
  by_cases h : P
  · rw [if_pos h]; exact hx h
  · rw [if_neg h]; exact hy h

theorem pyGetCol_isOk {bd : List (List Bool)} {i : Nat} (h : i < bd.length) :
    isOkE (pyGetCol bd i) := by
  unfold pyGetCol
  cases hq : bd.get? i with
  | none => rw [List.get?_eq_none] at hq; omega
  | some c => exact ⟨c, rfl⟩

theorem pyGetCell_isOk {c : List Bool} {j : Nat} (h : j < c.length) :
    isOkE (pyGetCell c j) := by
  unfold pyGetCell
  cases hq : c.get? j with
  | none => rw [List.get?_eq_none] at hq; omega
  | some x => exact ⟨x, rfl⟩

theorem pyCellI_isOk {c : List Bool} {idx : Int} (h0 : 0 ≤ idx)
    (h1 : idx < (c.length : Int)) : isOkE (pyCellI c idx) := by
  unfold pyCellI
  rw [if_pos h0]
  exact pyGetCell_isOk (by omega)

theorem firstHit_isOk {α : Type} {l : List α} {f : α → Except PyExc (Option Nat)}
    (hf : ∀ a ∈ l, isOkE (f a)) : isOkE (firstHit l f) := by
  induction l with
  | nil => exact ⟨none, rfl⟩
  | cons a rest ih =>
    obtain ⟨o, ho⟩ := hf a (List.mem_cons_self a rest)
    unfold firstHit
    rw [ho]
    cases o with
    | some r => exact ⟨some r, rfl⟩
    | none => exact ih (fun x hx => hf x (List.mem_cons_of_mem a hx))

theorem diag1At_isOk {bd : List (List Bool)} {i j : Nat} (h : i + 3 < bd.length) :
    isOkE (diag1At bd i j) := by
  unfold diag1At
  refine isOkE_bind (pyGetCol_isOk (by omega)) ?_
  intro c0 _
  refine isOkE_ite (fun hg0 => ?_) (fun _ => ⟨_, rfl⟩)
  refine isOkE_bind (pyGetCol_isOk (by omega)) ?_
  intro c1 _
  refine isOkE_ite (fun hg1 => ?_) (fun _ => ⟨_, rfl⟩)
  refine isOkE_bind (pyGetCol_isOk (by omega)) ?_
  intro c2 _
  refine isOkE_ite (fun hg2 => ?_) (fun _ => ⟨_, rfl⟩)
  refine isOkE_bind (pyGetCol_isOk (by omega)) ?_
  intro c3 _
  refine isOkE_ite (fun hg3 => ?_) (fun _ => ⟨_, rfl⟩)
  refine isOkE_bind (pyGetCell_isOk (by omega)) ?_
  intro a _
  refine isOkE_bind (pyGetCell_isOk (by omega)) ?_
  intro x _
  refine isOkE_ite (fun hax => ?_) (fun _ => ⟨_, rfl⟩)
  refine isOkE_bind (pyGetCell_isOk (by omega)) ?_
  intro y _
  refine isOkE_ite (fun hxy => ?_) (fun _ => ⟨_, rfl⟩)
  refine isOkE_bind (pyGetCell_isOk (by omega)) ?_
  intro z _
  exact isOkE_ite (fun _ => ⟨_, rfl⟩) (fun _ => ⟨_, rfl⟩)

theorem diag2At_isOk {bd : List (List Bool)} {i : Nat} {j : Int} (h : i + 3 < bd.length)
    (hj : 3 ≤ j) : isOkE (diag2At bd i j) := by
  unfold diag2At
  refine isOkE_bind (pyGetCol_isOk (by omega)) ?_
  intro c0 _
  refine isOkE_ite (fun hg0 => ?_) (fun _ => ⟨_, rfl⟩)
  refine isOkE_bind (pyGetCol_isOk (by omega)) ?_
  intro c1 _
  refine isOkE_ite (fun hg1 => ?_) (fun _ => ⟨_, rfl⟩)
  refine isOkE_bind (pyGetCol_isOk (by omega)) ?_
  intro c2 _
  refine isOkE_ite (fun hg2 => ?_) (fun _ => ⟨_, rfl⟩)
  refine isOkE_bind (pyGetCol_isOk (by omega)) ?_
  intro c3 _
  refine isOkE_ite (fun hg3 => ?_) (fun _ => ⟨_, rfl⟩)
  refine isOkE_bind (pyCellI_isOk (by omega) (by omega)) ?_
  intro a _
  refine isOkE_bind (pyCellI_isOk (by omega) (by omega)) ?_
  intro x _
  refine isOkE_ite (fun hax => ?_) (fun _ => ⟨_, rfl⟩)
  refine isOkE_bind (pyCellI_isOk (by omega) (by omega)) ?_
  intro y _
  refine isOkE_ite (fun hxy => ?_) (fun _ => ⟨_, rfl⟩)
  refine isOkE_bind (pyCellI_isOk (by omega) (by omega)) ?_
  intro z _
  exact isOkE_ite (fun _ => ⟨_, rfl⟩) (fun _ => ⟨_, rfl⟩)

theorem horizAt_isOk {bd : List (List Bool)} {i j : Nat} (h : i + 3 < bd.length) :
    isOkE (horizAt bd i j) := by
  unfold horizAt
  refine isOkE_bind (pyGetCol_isOk (by omega)) ?_
  intro c0 _
  refine isOkE_ite (fun hg0 => ?_) (fun _ => ⟨_, rfl⟩)
  refine isOkE_bind (pyGetCol_isOk (by omega)) ?_
  intro c1 _
  refine isOkE_ite (fun hg1 => ?_) (fun _ => ⟨_, rfl⟩)
  refine isOkE_bind (pyGetCol_isOk (by omega)) ?_
  intro c2 _
  refine isOkE_ite (fun hg2 => ?_) (fun _ => ⟨_, rfl⟩)
  refine isOkE_bind (pyGetCol_isOk (by omega)) ?_
  intro c3 _
  refine isOkE_ite (fun hg3 => ?_) (fun _ => ⟨_, rfl⟩)
  refine isOkE_bind (pyGetCell_isOk (by omega)) ?_
  intro a _
  refine isOkE_bind (pyGetCell_isOk (by omega)) ?_
  intro x _
  refine isOkE_ite (fun hax => ?_) (fun _ => ⟨_, rfl⟩)
  refine isOkE_bind (pyGetCell_isOk (by omega)) ?_
  intro y _
  refine isOkE_ite (fun hxy => ?_) (fun _ => ⟨_, rfl⟩)
  refine isOkE_bind (pyGetCell_isOk (by omega)) ?_
  intro z _
  exact isOkE_ite (fun _ => ⟨_, rfl⟩) (fun _ => ⟨_, rfl⟩)

theorem vertAt_isOk {c : List Bool} {piece : Nat} (h : piece + 3 < c.length) :
    isOkE (vertAt c piece) := by
  unfold vertAt
  refine isOkE_bind (pyGetCell_isOk (by omega)) ?_
  intro a _
  refine isOkE_bind (pyGetCell_isOk (by omega)) ?_
  intro x _
  refine isOkE_ite (fun hax => ?_) (fun _ => ⟨_, rfl⟩)
  refine isOkE_bind (pyGetCell_isOk (by omega)) ?_
  intro y _
  refine isOkE_ite (fun hxy => ?_) (fun _ => ⟨_, rfl⟩)
  refine isOkE_bind (pyGetCell_isOk (by omega)) ?_
  intro z _
  exact isOkE_ite (fun _ => ⟨_, rfl⟩) (fun _ => ⟨_, rfl⟩)

theorem mem_pyNatRange {a : Nat} {n : Int} : a ∈ pyNatRange n ↔ (a : Int) < n := by
  unfold pyNatRange
  rw [List.mem_range]
  omega

theorem mem_pyRange2 {j a b : Int} (h : j ∈ pyRange2 a b) : a ≤ j ∧ j < b := by
  unfold pyRange2 at h
  rw [List.mem_map] at h
  obtain ⟨k, hk, rfl⟩ := h
  rw [List.mem_range] at hk
  omega

theorem diag1Scan_isOk {bd : List (List Bool)} {size0 : Nat} (hw : bd.length = size0) :
    isOkE (diag1Scan bd size0 4) := by
  unfold diag1Scan
  refine firstHit_isOk ?_
  intro i hi
  rw [mem_pyNatRange] at hi
  refine isOkE_bind (pyGetCol_isOk (by omega)) ?_
  intro ci _
  refine firstHit_isOk ?_
  intro j _
  exact diag1At_isOk (by omega)

theorem diag2Scan_isOk {bd : List (List Bool)} {size0 : Nat} (hw : bd.length = size0) :
    isOkE (diag2Scan bd size0 4) := by
  unfold diag2Scan
  refine firstHit_isOk ?_
  intro i hi
  rw [mem_pyNatRange] at hi
  refine isOkE_bind (pyGetCol_isOk (by omega)) ?_
  intro ci _
  refine firstHit_isOk ?_
  intro j hj
  obtain ⟨hj1, -⟩ := mem_pyRange2 hj
  exact diag2At_isOk (by omega) (by omega)

theorem horizScan_isOk {bd : List (List Bool)} {size0 : Nat} (hw : bd.length = size0) :
    isOkE (horizScan bd size0 4) := by
  unfold horizScan
  refine firstHit_isOk ?_
  intro i hi
  rw [mem_pyNatRange] at hi
  refine isOkE_bind (pyGetCol_isOk (by omega)) ?_
  intro ci _
  refine firstHit_isOk ?_
  intro j _
  exact horizAt_isOk (by omega)

theorem vertScan_isOk (bd : List (List Bool)) : isOkE (vertScan bd 4) := by
  unfold vertScan
  refine firstHit_isOk ?_
  intro col hcol
  rw [List.mem_range] at hcol
  refine isOkE_bind (pyGetCol_isOk hcol) ?_
  intro cl _
  refine isOkE_ite (fun _ => ⟨_, rfl⟩) (fun hge => ?_)
  refine firstHit_isOk ?_
  intro piece hpiece
  rw [mem_pyNatRange] at hpiece
  exact vertAt_isOk (by omega)

/-- In the shipped configuration (`connect_num = 4`) and with the column list
matching the configured width, `check_result` never raises: every list access
of every scan family is guarded in bounds. (For `connect_num < 4` this fails
— see the C3 theorem.) -/
theorem check_result_isOk (b : C4Board) (hc : b.connect_num = 4)
    (hw : b._board.length = b.size.1) : ∃ r, b.check_result = .ok r := by
  rw [C4Board.check_result, hc]
  by_cases hfull : b._board.all (fun col => col.length == b.size.2)
  · rw [if_pos hfull]; exact ⟨1, rfl⟩
  · rw [if_neg hfull]
    obtain ⟨o1, h1⟩ := diag1Scan_isOk hw
    rw [h1]
    cases o1 with
    | some r => exact ⟨r, rfl⟩
    | none =>
      obtain ⟨o2, h2⟩ := diag2Scan_isOk hw
      rw [h2]
      cases o2 with
      | some r => exact ⟨r, rfl⟩
      | none =>
        obtain ⟨o3, h3⟩ := horizScan_isOk hw
        rw [h3]
        cases o3 with
        | some r => exact ⟨r, rfl⟩
        | none =>
          obtain ⟨o4, h4⟩ := vertScan_isOk b._board
          rw [h4]
          cases o4 with
          | some r => exact ⟨r, rfl⟩
          | none => exact ⟨0, rfl⟩

/-- C7 counterexample: a valid move can raise instead of returning `True`.
On the reachable 4x4 board with `connect_num = 3` holding two pieces in each
of columns 0 and 1, column 0 is in range and not full, yet
`make_move_at_column 0` raises `IndexError` (inside the result
recomputation) rather than completing with `True`. -/
theorem c7_valid_move_can_raise :
    ({ C4Board.init 4 4 3 with
        _board := [[false, false], [true, true], [], []] } : C4Board)._board.get? 0 =
      some [false, false] ∧
    ([false, false] : List Bool).length ≠ 4 ∧
    ({ C4Board.init 4 4 3 with
        _board := [[false, false], [true, true], [], []] } : C4Board).make_move_at_column 0 =
      .error .indexError := by decide

/-- C7 amended: with the shipped run length (`connect_num = 4`, where result
recomputation never raises) and the column list matching the configured
width, `make_move_at_column` behaves exactly as claimed: it returns `False`
with no mutation and no exception precisely when the column is out of
`[0, columnCount)` or full, and otherwise appends the mover's piece at the
top of the column, flips the turn exactly once, recomputes the result and
returns `True`. (For `connect_num ≠ 4` a valid move can raise during
recomputation — see the counterexample.) -/
theorem c7_apply_move_validation (b : C4Board) (hc : b.connect_num = 4)
    (hw : b._board.length = b.size.1) :
    (∀ col : Int, (col < 0 ∨ (b.size.1 : Int) ≤ col) →
      b.make_move_at_column col = .ok (false, b)) ∧
    (∀ col : Int, ∀ c : List Bool, 0 ≤ col → col < (b.size.1 : Int) →
      b._board.get? col.toNat = some c → c.length = b.size.2 →
      b.make_move_at_column col = .ok (false, b)) ∧
    (∀ col : Int, ∀ c : List Bool, 0 ≤ col → col < (b.size.1 : Int) →
      b._board.get? col.toNat = some c → c.length ≠ b.size.2 →
      ∃ r, ({ b with
                _board := b._board.set col.toNat (c ++ [b._turn])
                _turn := !b._turn } : C4Board).check_result = .ok r ∧
        b.make_move_at_column col = .ok (true,
          { b with
              _board := b._board.set col.toNat (c ++ [b._turn])
              _turn := !b._turn
              _result := r })) := by
  refine ⟨?_, ?_, ?_⟩
  · intro col hcol
    rw [C4Board.make_move_at_column, if_pos hcol]
  · intro col c h0 h1 hget hfull
    have hcol : ¬(col < 0 ∨ (b.size.1 : Int) ≤ col) := by omega
    have hc' : pyGetCol b._board col.toNat = .ok c := pyGetCol_ok_iff.mpr hget
    rw [C4Board.make_move_at_column, if_neg hcol]
    simp only [hc', exBind_ok, if_pos hfull]
    rfl
  · intro col c h0 h1 hget hfull
    have hcol : ¬(col < 0 ∨ (b.size.1 : Int) ≤ col) := by omega
    have hc' : pyGetCol b._board col.toNat = .ok c := pyGetCol_ok_iff.mpr hget
    obtain ⟨r, hr⟩ := check_result_isOk
      { b with _board := b._board.set col.toNat (c ++ [b._turn]), _turn := !b._turn }
      (by simpa using hc)
      (by simpa [List.length_set] using hw)
    refine ⟨r, hr, ?_⟩
    rw [C4Board.make_move_at_column, if_neg hcol]
    simp only [hc', exBind_ok, if_neg hfull, hr]
    rfl

theorem c7_apply_move_validation_witness :
    (C4Board.init 7 6 4).make_move_at_column 9 = .ok (false, C4Board.init 7 6 4) ∧
    ∃ r, ({ C4Board.init 7 6 4 with
            _board := (List.replicate 7 ([] : List Bool)).set 3 [false]
            _turn := true } : C4Board).check_result = .ok r ∧
      (C4Board.init 7 6 4).make_move_at_column 3 = .ok (true,
        { C4Board.init 7 6 4 with
            _board := (List.replicate 7 ([] : List Bool)).set 3 [false]
            _turn := true
            _result := r }) := by
  constructor
  · exact (c7_apply_move_validation (C4Board.init 7 6 4) (by decide) (by decide)).1 9
      (by decide)
  · exact (c7_apply_move_validation (C4Board.init 7 6 4) (by decide) (by decide)).2.2 3 []
      (by decide) (by decide) (by decide) (by decide)

/-! ### Negamax values stay in [-100, 100] -/

theorem dictGet_mem {κ ν : Type} [DecidableEq κ] {d : List (κ × ν)} {k : κ} {v : ν}
    (h : dictGet d k = some v) : ∃ p ∈ d, p.2 = v := by
  unfold dictGet at h
  cases hf : d.find? (fun p => decide (p.1 = k)) with
  | none => rw [hf] at h; cases h
  | some p =>
    rw [hf] at h
    cases h
    exact ⟨p, List.mem_of_find?_eq_some hf, rfl⟩

theorem dictSet_mem {κ ν : Type} [DecidableEq κ] {d : List (κ × ν)} {k : κ} {v : ν}
    {p : κ × ν} (h : p ∈ dictSet d k v) : p ∈ d ∨ p.2 = v := by
  unfold dictSet at h
  split at h
  · rw [List.mem_map] at h
    obtain ⟨q, hq, rfl⟩ := h
    by_cases hqk : q.1 = k
    · rw [if_pos hqk]; exact Or.inr rfl
    · rw [if_neg hqk]; exact Or.inl hq
  · rw [List.mem_append] at h
    rcases h with hmem | hkv
    · exact Or.inl hmem
    · rcases List.mem_singleton.mp hkv with rfl
      exact Or.inr rfl

theorem negamaxLoop_bounded
    {nm : C4Board → Int → Int → C4Engine → Except PyExc (Int × C4Board × C4Engine)}
    (Hnm : ∀ bb a2 b2 e, TtBounded e → ∀ w bb' e2, nm bb a2 b2 e = .ok (w, bb', e2) →
      (-100 ≤ w ∧ w ≤ 100) ∧ TtBounded e2) :
    ∀ (moves : List Nat) (b : C4Board) (alpha beta bestValue : Int) (eng : C4Engine)
      (v : Int) (b' : C4Board) (e' : C4Engine),
      TtBounded eng → -100 ≤ bestValue → bestValue ≤ 100 →
      negamaxLoop nm b moves alpha beta bestValue eng = .ok (v, b', e') →
      (-100 ≤ v ∧ v ≤ 100) ∧ TtBounded e' := by
  intro moves
  induction moves with
  | nil =>
    intro b alpha beta bestValue eng v b' e' hT hbv1 hbv2 h
    cases h
    exact ⟨⟨hbv1, hbv2⟩, hT⟩
  | cons m rest ih =>
    intro b alpha beta bestValue eng v b' e' hT hbv1 hbv2 h
    simp only [negamaxLoop] at h
    rcases exBind_eq_ok.mp h with ⟨p, hp, h2⟩
    rcases exBind_eq_ok.mp h2 with ⟨⟨w, b3, e2⟩, hnm, h3⟩
    obtain ⟨hwb, hTe2⟩ := Hnm _ _ _ _ hT _ _ _ hnm
    rcases exBind_eq_ok.mp h3 with ⟨b4, hb4, h4⟩
    by_cases hcut : max alpha (-w) ≥ beta
    · rw [if_pos hcut] at h4
      cases h4
      exact ⟨⟨by omega, by omega⟩, hTe2⟩
    · rw [if_neg hcut] at h4
      exact ih b4 _ beta _ e2 v b' e' hTe2 (by omega) (by omega) h4

/-- C9: every value `negamax` returns lies in the closed interval
`[-100, 100]`, for every board, every alpha/beta window, every remaining
depth (`fuel = plyLimit - ply`, covering every `ply` and every
`plyLimit ≥ 0`), and every engine whose transposition table holds only
values in that interval (as the freshly constructed engine does); moreover
the table invariant is preserved, so values returned via table hits and the
values stored after each search stay bounded as well. -/
theorem c9_negamax_bounded (fuel : Nat) (eng : C4Engine) (b : C4Board) (alpha beta : Int)
    (v : Int) (b' : C4Board) (e' : C4Engine) (hT : TtBounded eng)
    (h : C4Engine.negamax fuel eng b alpha beta = .ok (v, b', e')) :
    (-100 ≤ v ∧ v ≤ 100) ∧ TtBounded e' := by
  induction fuel generalizing eng b alpha beta v b' e' with
  | zero =>
    simp only [C4Engine.negamax] at h
    cases h
    refine ⟨?_, hT⟩
    unfold C4Engine.evaluate_position
    split <;> omega
  | succ fuel ih =>
    simp only [C4Engine.negamax] at h
    by_cases hres2 : 2 ≤ b._result
    · rw [if_pos hres2] at h
      cases h
      exact ⟨⟨by omega, by omega⟩, hT⟩
    · rw [if_neg hres2] at h
      by_cases hres1 : b._result = 1
      · rw [if_pos hres1] at h
        cases h
        exact ⟨⟨by omega, by omega⟩, hT⟩
      · rw [if_neg hres1] at h
        cases htt : dictGet eng.ttable b.get_fen with
        | some v0 =>
          rw [htt] at h
          cases h
          obtain ⟨q, hq, hqv⟩ := dictGet_mem htt
          obtain ⟨hq1, hq2⟩ := hT q hq
          exact ⟨⟨by omega, by omega⟩, hT⟩
        | none =>
          rw [htt] at h
          rcases exBind_eq_ok.mp h with ⟨moves, hm, h2⟩
          rcases exBind_eq_ok.mp h2 with ⟨⟨bv, b1, e1⟩, hloop, h3⟩
          simp only [exPure_eq_ok, Except.ok.injEq, Prod.mk.injEq] at h3
          obtain ⟨hv, hb, he⟩ := h3
          subst hv; subst hb; subst he
          obtain ⟨hvb, hTe1⟩ := negamaxLoop_bounded
            (fun bb a2 b2 e hTe w bb' e2 hnm => ih e bb a2 b2 w bb' e2 hTe hnm)
            moves b alpha beta (-100) eng bv b1 e1 hT (by omega) (by omega) hloop
          refine ⟨hvb, ?_⟩
          intro q hq
          rcases dictSet_mem hq with hmem | hval
          · exact hTe1 q hmem
          · rw [hval]; exact hvb

theorem c9_negamax_bounded_witness :
    ((-100 : Int) ≤ 0 ∧ (0 : Int) ≤ 100) ∧
    TtBounded { ttable := [([' ', '1'], 0)], _lookups := 0 } :=
  c9_negamax_bounded 10 C4Engine.init (C4Board.init 1 1 4) (-100) 100 0
    { C4Board.init 1 1 4 with _result := 1 }
    { ttable := [([' ', '1'], 0)], _lookups := 0 }
    (fun p hp => absurd hp (List.not_mem_nil p))
    (by decide)
